import Mathlib

/-!
Verification development for the CSV-to-HANA import engine
(`import_csv_to_hana.py` and `hana_client.py`).

Python strings are modelled as `List Char` (`PyStr`); a row key is a
fixed-arity tuple of normalized values, modelled as `List PyStr`
(`RowKey`).  Python truthiness of a string (`if val else ...`) is
emptiness of the list.  Machine-level concerns (subprocess spawning,
actual SQL execution) are modelled as oracle inputs: the client result
of one `execute_query` call is an `Except PyStr (Int × ...)` value,
`.error` standing for a raised `HanaClientError`/exception.
-/

abbrev PyStr := List Char

abbrev RowKey := List PyStr

/-- The double-quote character `"` (written by code point to keep the
source free of quote-literal noise). -/
def dquoteChar : Char := Char.ofNat 34

/-- The single-quote character (code point 39). -/
def squoteChar : Char := Char.ofNat 39

/-- Characters removed by Python `str.strip()` with no argument
(ASCII whitespace: space, tab, newline, carriage return, vertical tab,
form feed). -/
def isPySpace (c : Char) : Bool :=
  c = ' ' || c = '\t' || c = '\n' || c = '\r' || c = Char.ofNat 11 || c = Char.ofNat 12

/-- Remove trailing characters satisfying `p` (the right half of
Python `str.strip`). -/
def pyDropEnd (p : Char → Bool) (l : List Char) : List Char :=
  (l.reverse.dropWhile p).reverse

/-- Python `str.strip(chars)`: remove all leading and trailing
characters satisfying `p`. -/
def pyStrip (p : Char → Bool) (l : List Char) : List Char :=
  pyDropEnd p (l.dropWhile p)

/-- `normalize_value` from `import_csv_to_hana.py` (lines 100-103), the
same expression as the inline normalization in
`hana_client.get_table_records_paginated` (lines 219-222):
`str(val).strip().strip(dquote).strip(squote) if val else ""`. -/
def normalize_value (val : PyStr) : PyStr :=
  if val = [] then []
  else pyStrip (fun c => c = squoteChar) (pyStrip (fun c => c = dquoteChar) (pyStrip isPySpace val))

/-! ### Generic facts about `pyStrip` -/

theorem dropWhile_eq_self_of_head? (p : Char → Bool) (l : List Char)
    (h : ∀ c, l.head? = some c → p c = false) : l.dropWhile p = l := by
  cases l with
  | nil => rfl
  | cons x xs =>
      have hx := h x rfl
      simp [List.dropWhile_cons, hx]

theorem head?_dropWhile_false (p : Char → Bool) :
    ∀ (l : List Char) (c : Char), (l.dropWhile p).head? = some c → p c = false := by
  intro l
  induction l with
  | nil => intro c h; simp [List.dropWhile] at h
  | cons x xs ih =>
      intro c h
      by_cases hx : p x
      · rw [List.dropWhile_cons_of_pos hx] at h
        exact ih c h
      · rw [List.dropWhile_cons_of_neg hx] at h
        simp at h
        subst h
        exact Bool.eq_false_iff.mpr hx

theorem pyStrip_eq_self (p : Char → Bool) (l : List Char)
    (hh : ∀ c, l.head? = some c → p c = false)
    (hl : ∀ c, l.getLast? = some c → p c = false) : pyStrip p l = l := by
  unfold pyStrip pyDropEnd
  rw [dropWhile_eq_self_of_head? p l hh]
  rw [dropWhile_eq_self_of_head? p l.reverse (by
    intro c hc
    rw [List.head?_reverse] at hc
    exact hl c hc)]
  exact List.reverse_reverse l

theorem head?_pyStrip_false (p : Char → Bool) (l : List Char) (c : Char)
    (h : (pyStrip p l).head? = some c) : p c = false := by
  unfold pyStrip pyDropEnd at h
  set u := l.dropWhile p with hu
  set v := u.reverse.dropWhile p with hv
  -- `v` is a suffix of `u.reverse`, so `v.reverse` is a prefix of `u`
  obtain ⟨t, ht⟩ := List.dropWhile_suffix (l := u.reverse) p
  have hrev : u = v.reverse ++ t.reverse := by
    have h2 := congrArg List.reverse ht
    simp only [List.reverse_append, List.reverse_reverse] at h2
    rw [← h2, hv]
  have hhead : u.head? = some c := by
    rw [hrev, List.head?_append]
    cases hvr : v.reverse.head? with
    | none =>
        exfalso
        rw [hvr] at h
        exact Option.noConfusion h
    | some d =>
        rw [hvr] at h
        have : d = c := Option.some.inj h
        subst this
        simp [hvr]
  exact head?_dropWhile_false p l c hhead

theorem getLast?_pyStrip_false (p : Char → Bool) (l : List Char) (c : Char)
    (h : (pyStrip p l).getLast? = some c) : p c = false := by
  unfold pyStrip pyDropEnd at h
  rw [List.getLast?_reverse] at h
  exact head?_dropWhile_false p (l.dropWhile p).reverse c h

theorem pyStrip_idem (p : Char → Bool) (l : List Char) :
    pyStrip p (pyStrip p l) = pyStrip p l := by
  exact pyStrip_eq_self p (pyStrip p l)
    (fun c hc => head?_pyStrip_false p l c hc)
    (fun c hc => getLast?_pyStrip_false p l c hc)

theorem mem_of_mem_pyStrip {p : Char → Bool} {l : List Char} {c : Char}
    (h : c ∈ pyStrip p l) : c ∈ l := by
  unfold pyStrip pyDropEnd at h
  rw [List.mem_reverse] at h
  have h1 : c ∈ (l.dropWhile p).reverse := (List.dropWhile_sublist _).subset h
  rw [List.mem_reverse] at h1
  exact (List.dropWhile_sublist _).subset h1

theorem pyStrip_eq_self_of_all {p : Char → Bool} {l : List Char}
    (h : ∀ c ∈ l, p c = false) : pyStrip p l = l := by
  refine pyStrip_eq_self p l (fun c hc => ?_) (fun c hc => ?_)
  · exact h c (List.mem_of_mem_head? hc)
  · have : c ∈ l.reverse := List.mem_of_mem_head? (by rwa [List.head?_reverse])
    exact h c (List.mem_reverse.mp this)

theorem dropWhile_append_of_all (p : Char → Bool) (pre rest : List Char)
    (hpre : ∀ c ∈ pre, p c = true) :
    (pre ++ rest).dropWhile p = rest.dropWhile p := by
  induction pre with
  | nil => rfl
  | cons x xs ih =>
      have hx : p x = true := hpre x (List.mem_cons_self x xs)
      simp only [List.cons_append, List.dropWhile_cons_of_pos hx]
      exact ih (fun c hc => hpre c (List.mem_cons_of_mem x hc))

theorem pyStrip_sandwich (p : Char → Bool) (pre suf X : List Char)
    (hpre : ∀ c ∈ pre, p c = true) (hsuf : ∀ c ∈ suf, p c = true)
    (hh : ∀ c, X.head? = some c → p c = false)
    (hl : ∀ c, X.getLast? = some c → p c = false) :
    pyStrip p (pre ++ X ++ suf) = X := by
  unfold pyStrip pyDropEnd
  rw [List.append_assoc, dropWhile_append_of_all p pre (X ++ suf) hpre]
  cases X with
  | nil =>
      simp only [List.nil_append]
      rw [List.dropWhile_eq_nil_iff.mpr (fun c hc => hsuf c hc)]
      rfl
  | cons x xs =>
      have hx : p x = false := hh x rfl
      rw [List.cons_append, List.dropWhile_cons_of_neg (by simp [hx]), ← List.cons_append]
      rw [List.reverse_append, dropWhile_append_of_all p suf.reverse (x :: xs).reverse
        (fun c hc => hsuf c (List.mem_reverse.mp hc))]
      rw [dropWhile_eq_self_of_head? p (x :: xs).reverse (by
        intro c hc
        rw [List.head?_reverse] at hc
        exact hl c hc)]
      exact List.reverse_reverse _

/-! ### Claim C2: CSV-side vs database-side key construction -/

/-- Database-side construction of one RowKey component on the primary-key
path: `get_table_records_paginated` normalizes each fetched value
(`hana_client.py` lines 219-222), and `compare_batch` then applies
`normalize_value` to the already-normalized component
(`import_csv_to_hana.py` line 204).  The composite is therefore
`normalize_value` applied twice. -/
def dbSideKeyComponent (raw : PyStr) : PyStr :=
  normalize_value (normalize_value raw)

/-- CSV-side construction of one RowKey component: a single application
of `normalize_value` (`import_csv_to_hana.py` lines 159-162). -/
def csvSideKeyComponent (raw : PyStr) : PyStr :=
  normalize_value raw

theorem normalize_value_eq_stripWs_of_no_quotes (raw : PyStr) (hr : raw ≠ [])
    (h : ∀ c ∈ raw, c ≠ dquoteChar ∧ c ≠ squoteChar) :
    normalize_value raw = pyStrip isPySpace raw := by
  unfold normalize_value
  rw [if_neg hr]
  have hq : pyStrip (fun c => c = dquoteChar) (pyStrip isPySpace raw) = pyStrip isPySpace raw := by
    refine pyStrip_eq_self_of_all (fun c hc => ?_)
    have hm : c ∈ raw := mem_of_mem_pyStrip hc
    exact decide_eq_false (h c hm).1
  rw [hq]
  refine pyStrip_eq_self_of_all (fun c hc => ?_)
  have hm : c ∈ raw := mem_of_mem_pyStrip hc
  exact decide_eq_false (h c hm).2

/-- Claim C2 as stated is false: the database side normalizes twice, and
`normalize_value` is not idempotent when stripping a quote layer exposes
new surrounding whitespace.  At the raw value `" x"` (double-quote,
space, x, double-quote) the CSV side yields `space,x` while the database
side yields `x`. -/
theorem c2_db_key_not_bit_identical_counterexample :
    dbSideKeyComponent [dquoteChar, ' ', 'x', dquoteChar] ≠
      csvSideKeyComponent [dquoteChar, ' ', 'x', dquoteChar] := by
  decide

/-- Claim C2 amended: for every raw value containing no single- or
double-quote character, the database-side RowKey component (fetch-time
normalization composed with the `compare_batch` per-key normalization)
is bit-identical to the CSV-side component (a single `normalize_value`).
In general the database side applies `normalize_value` twice, which can
differ when quote-stripping exposes new surrounding whitespace. -/
theorem c2_db_key_identical_for_quote_free_values (raw : PyStr)
    (h : ∀ c ∈ raw, c ≠ dquoteChar ∧ c ≠ squoteChar) :
    dbSideKeyComponent raw = csvSideKeyComponent raw := by
  unfold dbSideKeyComponent csvSideKeyComponent
  by_cases hr : raw = []
  · subst hr
    rfl
  · rw [normalize_value_eq_stripWs_of_no_quotes raw hr h]
    set t := pyStrip isPySpace raw with ht
    by_cases htn : t = []
    · rw [htn]
      rfl
    · have htq : ∀ c ∈ t, c ≠ dquoteChar ∧ c ≠ squoteChar :=
        fun c hc => h c (mem_of_mem_pyStrip hc)
      rw [normalize_value_eq_stripWs_of_no_quotes t htn htq, ht, pyStrip_idem]

theorem c2_db_key_identical_for_quote_free_values_witness :
    (∀ c ∈ ([' ', 'x'] : PyStr), c ≠ dquoteChar ∧ c ≠ squoteChar) ∧
      dbSideKeyComponent [' ', 'x'] = csvSideKeyComponent [' ', 'x'] :=
  ⟨by decide, c2_db_key_identical_for_quote_free_values [' ', 'x'] (by decide)⟩

/-! ### Claim C6: whitespace / quote-layer equivalence under normalization -/

/-- A character that blocks stripping at a value boundary: neither
whitespace nor either quote character. -/
def cleanEdgeChar (c : Char) : Bool :=
  !isPySpace c && !(c = dquoteChar) && !(c = squoteChar)

/-- Claim C6 as stated (for every X, the whitespace-padded, double-quoted
and single-quoted forms of X all normalize to X) is false: for
X = `space,a` the whitespace-padded form normalizes to `a` while the
double-quoted form normalizes to `space,a`, so two rows differing only
in surrounding whitespace versus one layer of quotes around the same X
produce different RowKeys. -/
theorem c6_quote_space_equivalence_counterexample :
    normalize_value ([' ', ' '] ++ [' ', 'a'] ++ [' ']) ≠
      normalize_value ([dquoteChar] ++ [' ', 'a'] ++ [dquoteChar]) := by
  decide

/-- Claim C6 amended: for every X that is empty or whose first and last
characters are neither whitespace nor quote characters, the
whitespace-padded form, the double-quoted form and the single-quoted
form of X all normalize to exactly X (and X is itself a fixed point of
`normalize_value`), so such variant rows produce equal RowKeys.  When X
carries whitespace or quote characters at its own edges the three forms
can normalize differently. -/
theorem c6_normalization_equates_padded_and_quoted_forms (X : PyStr)
    (hh : ∀ c, X.head? = some c → cleanEdgeChar c = true)
    (hl : ∀ c, X.getLast? = some c → cleanEdgeChar c = true) :
    normalize_value ([' ', ' '] ++ X ++ [' ']) = X ∧
      normalize_value ([dquoteChar] ++ X ++ [dquoteChar]) = X ∧
      normalize_value ([squoteChar] ++ X ++ [squoteChar]) = X ∧
      normalize_value X = X := by
  have hhs : ∀ c, X.head? = some c → isPySpace c = false := fun c hc => by
    have := hh c hc
    unfold cleanEdgeChar at this
    simp only [Bool.and_eq_true, Bool.not_eq_true'] at this
    exact this.1.1
  have hhd : ∀ c, X.head? = some c → decide (c = dquoteChar) = false := fun c hc => by
    have := hh c hc
    unfold cleanEdgeChar at this
    simp only [Bool.and_eq_true, Bool.not_eq_true'] at this
    exact this.1.2
  have hhq : ∀ c, X.head? = some c → decide (c = squoteChar) = false := fun c hc => by
    have := hh c hc
    unfold cleanEdgeChar at this
    simp only [Bool.and_eq_true, Bool.not_eq_true'] at this
    exact this.2
  have hls : ∀ c, X.getLast? = some c → isPySpace c = false := fun c hc => by
    have := hl c hc
    unfold cleanEdgeChar at this
    simp only [Bool.and_eq_true, Bool.not_eq_true'] at this
    exact this.1.1
  have hld : ∀ c, X.getLast? = some c → decide (c = dquoteChar) = false := fun c hc => by
    have := hl c hc
    unfold cleanEdgeChar at this
    simp only [Bool.and_eq_true, Bool.not_eq_true'] at this
    exact this.1.2
  have hlq : ∀ c, X.getLast? = some c → decide (c = squoteChar) = false := fun c hc => by
    have := hl c hc
    unfold cleanEdgeChar at this
    simp only [Bool.and_eq_true, Bool.not_eq_true'] at this
    exact this.2
  have hfixQ : pyStrip (fun c => c = squoteChar) (pyStrip (fun c => c = dquoteChar) X) = X := by
    rw [pyStrip_eq_self _ X hhd hld]
    exact pyStrip_eq_self _ X hhq hlq
  refine ⟨?_, ?_, ?_, ?_⟩
  · unfold normalize_value
    rw [if_neg (by simp)]
    rw [pyStrip_sandwich isPySpace [' ', ' '] [' '] X (by decide) (by decide) hhs hls]
    exact hfixQ
  · unfold normalize_value
    rw [if_neg (by simp)]
    have hws : pyStrip isPySpace ([dquoteChar] ++ X ++ [dquoteChar]) =
        [dquoteChar] ++ X ++ [dquoteChar] := by
      refine pyStrip_eq_self isPySpace _ (fun c hc => ?_) (fun c hc => ?_)
      · simp only [List.append_assoc, List.cons_append, List.head?_cons] at hc
        cases hc
        decide
      · rw [List.append_assoc, List.getLast?_append, List.getLast?_concat] at hc
        rw [Option.or_some] at hc
        cases hc
        decide
    rw [hws]
    rw [pyStrip_sandwich (fun c => c = dquoteChar) [dquoteChar] [dquoteChar] X
      (by decide) (by decide) hhd hld]
    exact pyStrip_eq_self _ X hhq hlq
  · unfold normalize_value
    rw [if_neg (by simp)]
    have hws : pyStrip isPySpace ([squoteChar] ++ X ++ [squoteChar]) =
        [squoteChar] ++ X ++ [squoteChar] := by
      refine pyStrip_eq_self isPySpace _ (fun c hc => ?_) (fun c hc => ?_)
      · simp only [List.append_assoc, List.cons_append, List.head?_cons] at hc
        cases hc
        decide
      · rw [List.append_assoc, List.getLast?_append, List.getLast?_concat] at hc
        rw [Option.or_some] at hc
        cases hc
        decide
    rw [hws]
    have hdq : pyStrip (fun c => c = dquoteChar) ([squoteChar] ++ X ++ [squoteChar]) =
        [squoteChar] ++ X ++ [squoteChar] := by
      refine pyStrip_eq_self _ _ (fun c hc => ?_) (fun c hc => ?_)
      · simp only [List.append_assoc, List.cons_append, List.head?_cons] at hc
        cases hc
        decide
      · rw [List.append_assoc, List.getLast?_append, List.getLast?_concat] at hc
        rw [Option.or_some] at hc
        cases hc
        decide
    rw [hdq]
    exact pyStrip_sandwich (fun c => c = squoteChar) [squoteChar] [squoteChar] X
      (by decide) (by decide) hhq hlq
  · cases hX : X with
    | nil => rfl
    | cons x xs =>
        unfold normalize_value
        rw [if_neg (by simp)]
        rw [← hX]
        rw [pyStrip_eq_self isPySpace X hhs hls]
        exact hfixQ

theorem c6_normalization_equates_padded_and_quoted_forms_witness :
    normalize_value ([' ', ' '] ++ ['X'] ++ [' ']) = ['X'] ∧
      normalize_value ([dquoteChar] ++ ['X'] ++ [dquoteChar]) = ['X'] ∧
      normalize_value ([squoteChar] ++ ['X'] ++ [squoteChar]) = ['X'] ∧
      normalize_value ['X'] = ['X'] :=
  c6_normalization_equates_padded_and_quoted_forms ['X']
    (fun c hc => by cases hc; decide)
    (fun c hc => by cases hc; decide)

/-! ### Claims C1 / C3: the Parallel Insert Executor -/

/-- The result of one `client.execute_query` invocation:
`.ok (returncode, stdout, stderr)`, or `.error e` when the call raised
(`HanaClientError`, e.g. a timeout). -/
abbrev ClientResult := Except PyStr (Int × PyStr × PyStr)

/-- Python `str.lower()` (ASCII as used by the signatures checked). -/
def pyLower (s : PyStr) : PyStr := s.map Char.toLower

/-- Whether `needle` starts `hay` (helper for Python `in`). -/
def startsWithSub : PyStr → PyStr → Bool
  | [], _ => true
  | _ :: _, [] => false
  | a :: as, b :: bs => a == b && startsWithSub as bs

/-- Python substring containment `needle in hay`. -/
def containsSub (needle : PyStr) : PyStr → Bool
  | [] => startsWithSub needle []
  | b :: bs => startsWithSub needle (b :: bs) || containsSub needle bs

/-- `error_msg = stderr.strip() if stderr else "Error desconocido"`
(`import_csv_to_hana.py` line 293). -/
def pyErrMsg (stderrText : PyStr) : PyStr :=
  if stderrText ≠ [] then pyStrip isPySpace stderrText else "Error desconocido".toList

/-- The duplicate/uniqueness-violation signature test of
`import_csv_to_hana.py` line 295: the lowered error text contains
`unique constraint` or `duplicate`. -/
def isDupErrorText (msg : PyStr) : Bool :=
  containsSub ("unique constraint".toList) (pyLower msg) ||
    containsSub ("duplicate".toList) (pyLower msg)

/-- `execute_single_insert` (`import_csv_to_hana.py` lines 281-299):
status 1 = inserted, 0 = duplicate (skip), -1 = error with the row
ordinal and message (the f-string `Linea {row_idx}: {error_msg}` is
modelled as the pair of ordinal and message). -/
def execute_single_insert (row_idx : Nat) (res : ClientResult) : Int × Option (Nat × PyStr) :=
  match res with
  | .error e => (-1, some (row_idx, e))
  | .ok (returncode, _stdout, stderrText) =>
    if returncode = 0 then (1, none)
    else if isDupErrorText (pyErrMsg stderrText) then (0, none)
    else (-1, some (row_idx, pyErrMsg stderrText))

/-- One insert attempt per entry of `inserts_to_execute`
(`import_csv_to_hana.py` lines 303-308): the executor submits
`execute_single_insert` once for each pending `(row_idx, values)`. -/
def insertAttempts (oracle : Nat → PyStr → ClientResult)
    (rows : List (Nat × PyStr)) : List (Int × Option (Nat × PyStr)) :=
  rows.map (fun rv => execute_single_insert rv.1 (oracle rv.1 rv.2))

/-- One step of the result-aggregation loop of `import_csv_to_hana.py`
lines 313-320 (the body guarded by `insert_lock`): status 1 increments
`inserted`, status 0 increments `skipped`, and otherwise a present
`error_msg` is appended to `failed_inserts`. -/
def applyOutcome (r : Int × Option (Nat × PyStr)) (acc : Nat × Nat × List (Nat × PyStr)) :
    Nat × Nat × List (Nat × PyStr) :=
  if r.1 = 1 then (acc.1 + 1, acc.2.1, acc.2.2)
  else if r.1 = 0 then (acc.1, acc.2.1 + 1, acc.2.2)
  else
    match r.2 with
    | some m => (acc.1, acc.2.1, m :: acc.2.2)
    | none => acc

/-- The insert phase of `import_csv_to_hana.py` lines 303-320: one
`execute_single_insert` per pending row, results aggregated under the
lock into (inserted, duplicate-skipped, failed messages).  Completion
order of the thread pool does not affect the counters, so the phase is
folded over the pending list. -/
def runInsertPhase (oracle : Nat → PyStr → ClientResult) :
    List (Nat × PyStr) → Nat × Nat × List (Nat × PyStr)
  | [] => (0, 0, [])
  | (row_idx, values) :: rest =>
    applyOutcome (execute_single_insert row_idx (oracle row_idx values))
      (runInsertPhase oracle rest)

theorem execute_single_insert_cases (i : Nat) (res : ClientResult) :
    ((execute_single_insert i res).1 = 1 ∧ (execute_single_insert i res).2 = none) ∨
    ((execute_single_insert i res).1 = 0 ∧ (execute_single_insert i res).2 = none) ∨
    ((execute_single_insert i res).1 = -1 ∧ ∃ m, (execute_single_insert i res).2 = some m) := by
  cases res with
  | error e =>
      right; right
      exact ⟨rfl, ⟨(i, e), rfl⟩⟩
  | ok t =>
      obtain ⟨rc, out, err⟩ := t
      by_cases h0 : rc = 0
      · left
        simp [execute_single_insert, h0]
      · by_cases hd : isDupErrorText (pyErrMsg err) = true
        · right; left
          simp [execute_single_insert, h0, hd]
        · right; right
          simp [execute_single_insert, h0, hd]

theorem applyOutcome_sum (r : Int × Option (Nat × PyStr)) (acc : Nat × Nat × List (Nat × PyStr))
    (hr : (r.1 = 1 ∧ r.2 = none) ∨ (r.1 = 0 ∧ r.2 = none) ∨ (r.1 = -1 ∧ ∃ m, r.2 = some m)) :
    (applyOutcome r acc).1 + (applyOutcome r acc).2.1 + (applyOutcome r acc).2.2.length =
      acc.1 + acc.2.1 + acc.2.2.length + 1 := by
  rcases hr with ⟨h1, _⟩ | ⟨h1, _⟩ | ⟨h1, h2⟩
  · rw [applyOutcome, if_pos h1]
    dsimp only
    omega
  · have hne : r.1 ≠ 1 := by rw [h1]; decide
    rw [applyOutcome, if_neg hne, if_pos h1]
    dsimp only
    omega
  · have hne1 : r.1 ≠ 1 := by rw [h1]; decide
    have hne0 : r.1 ≠ 0 := by rw [h1]; decide
    obtain ⟨m, hm⟩ := h2
    rw [applyOutcome, if_neg hne1, if_neg hne0, hm]
    dsimp only
    simp only [List.length_cons]
    omega

theorem insertPhase_sum (oracle : Nat → PyStr → ClientResult) (rows : List (Nat × PyStr)) :
    (runInsertPhase oracle rows).1 + (runInsertPhase oracle rows).2.1 +
      (runInsertPhase oracle rows).2.2.length = rows.length := by
  induction rows with
  | nil => rfl
  | cons rv rest ih =>
      obtain ⟨row_idx, values⟩ := rv
      have h := applyOutcome_sum (execute_single_insert row_idx (oracle row_idx values))
        (runInsertPhase oracle rest)
        (execute_single_insert_cases row_idx (oracle row_idx values))
      simp only [runInsertPhase] at h ⊢
      rw [h, ih, List.length_cons]

/-- Claim C1: the Insert Executor makes exactly one insert attempt per
pending row, each attempt is classified as exactly one of inserted,
skipped-duplicate or failed, and when the phase completes
`inserted + skipped_duplicate + failed = count(pending rows)`. -/
theorem c1_one_attempt_per_row_and_counter_conservation
    (oracle : Nat → PyStr → ClientResult) (rows : List (Nat × PyStr)) :
    (insertAttempts oracle rows).length = rows.length ∧
      (∀ a ∈ insertAttempts oracle rows,
        (a.1 = 1 ∧ a.2 = none) ∨ (a.1 = 0 ∧ a.2 = none) ∨ (a.1 = -1 ∧ ∃ m, a.2 = some m)) ∧
      (runInsertPhase oracle rows).1 + (runInsertPhase oracle rows).2.1 +
        (runInsertPhase oracle rows).2.2.length = rows.length := by
  refine ⟨List.length_map rows _, ?_, insertPhase_sum oracle rows⟩
  intro a ha
  rw [insertAttempts, List.mem_map] at ha
  obtain ⟨rv, _, hrv⟩ := ha
  rw [← hrv]
  exact execute_single_insert_cases rv.1 (oracle rv.1 rv.2)

/-- Claim C3: classification of a single insert attempt.  Exit code zero
means inserted; a non-zero exit code whose error text carries a
duplicate/uniqueness signature means skipped-duplicate with no error
recorded; any other non-zero exit code (or a raised client exception)
means hard failure with the row ordinal and message recorded; and the
phase keeps processing the remaining rows after any outcome
(no fail-fast): the totals over `row :: rest` always extend the totals
over `rest` by exactly this one row. -/
theorem c3_insert_outcome_classification (row_idx : Nat) (rc : Int) (out err e : PyStr) :
    (rc = 0 → execute_single_insert row_idx (.ok (rc, out, err)) = (1, none)) ∧
      (rc ≠ 0 → isDupErrorText (pyErrMsg err) = true →
        execute_single_insert row_idx (.ok (rc, out, err)) = (0, none)) ∧
      (rc ≠ 0 → isDupErrorText (pyErrMsg err) = false →
        execute_single_insert row_idx (.ok (rc, out, err)) = (-1, some (row_idx, pyErrMsg err))) ∧
      (execute_single_insert row_idx (.error e) = (-1, some (row_idx, e))) ∧
      (∀ oracle values rest,
        (runInsertPhase oracle ((row_idx, values) :: rest)).1 +
            (runInsertPhase oracle ((row_idx, values) :: rest)).2.1 +
            (runInsertPhase oracle ((row_idx, values) :: rest)).2.2.length =
          1 + ((runInsertPhase oracle rest).1 + (runInsertPhase oracle rest).2.1 +
            (runInsertPhase oracle rest).2.2.length)) := by
  refine ⟨?_, ?_, ?_, rfl, ?_⟩
  · intro h0
    simp [execute_single_insert, h0]
  · intro h0 hd
    simp [execute_single_insert, h0, hd]
  · intro h0 hd
    simp [execute_single_insert, h0, hd]
  · intro oracle values rest
    rw [insertPhase_sum oracle ((row_idx, values) :: rest), insertPhase_sum oracle rest]
    simp [Nat.add_comm]

theorem c3_insert_outcome_classification_witness :
    execute_single_insert 7 (.ok (0, [], [])) = (1, none) ∧
      execute_single_insert 8 (.ok (1, [], " UNIQUE constraint violated ".toList)) = (0, none) ∧
      execute_single_insert 9 (.ok (1, [], "type mismatch".toList)) =
        (-1, some (9, pyErrMsg ("type mismatch".toList))) :=
  ⟨(c3_insert_outcome_classification 7 0 [] [] []).1 rfl,
    (c3_insert_outcome_classification 8 1 [] (" UNIQUE constraint violated ".toList) []).2.1
      (by decide) (by decide),
    (c3_insert_outcome_classification 9 1 [] ("type mismatch".toList) []).2.2.1
      (by decide) (by decide)⟩

/-! ### Claim C4: fallback to full-row identity -/

/-- Python `columns.index(col)`: position of the first occurrence. -/
def pyIndexOf (columns : List String) (col : String) : Option Nat :=
  columns.findIdx? (fun c => c = col)

/-- The primary-key resolution loop of `import_csv_to_hana.py` lines
126-132: collect `columns.index(pk_col)` for each PK column in order;
if any PK column is absent from `columns`, the whole resolution is
discarded (`pk_columns = None; break`). -/
def resolve_pk_indices : List String → List String → Option (List Nat)
  | [], _ => some []
  | pk :: rest, columns =>
    match pyIndexOf columns pk with
    | none => none
    | some i =>
      match resolve_pk_indices rest columns with
      | none => none
      | some is => some (i :: is)

/-- The `use_pk` decision of `import_csv_to_hana.py` lines 120-140:
primary-key identity is active only when a PK column list was extracted,
it is non-empty (`if pk_columns:`), every PK column occurs in `columns`,
and the resulting index list is non-empty (`if pk_columns and
pk_indices:`).  `some idxs` = PK identity with those positions,
`none` = full-row identity. -/
def use_pk_decision (pkColumns : Option (List String)) (columns : List String) :
    Option (List Nat) :=
  match pkColumns with
  | none => none
  | some pkCols =>
    if pkCols.isEmpty then none
    else
      match resolve_pk_indices pkCols columns with
      | none => none
      | some idxs => if idxs.isEmpty then none else some idxs

/-- CSV-side RowKey of one row (`import_csv_to_hana.py` lines 158-162):
projection of the padded value list onto the PK positions, or
normalization of every column when full-row identity is active. -/
def csvRowKey (mode : Option (List Nat)) (values : List PyStr) : RowKey :=
  match mode with
  | some idxs => idxs.map (fun i => normalize_value (values.getD i []))
  | none => values.map normalize_value

/-- Database-side RowKey of one fetched record (`import_csv_to_hana.py`
lines 202-207): PK projection with re-normalization, or the
fetch-normalized record itself under full-row identity. -/
def hanaRowKey (mode : Option (List Nat)) (record : RowKey) : RowKey :=
  match mode with
  | some idxs => idxs.map (fun i => normalize_value (record.getD i []))
  | none => record

theorem resolve_pk_indices_eq_none_of_missing (pkCols columns : List String)
    (h : ∃ c ∈ pkCols, c ∉ columns) : resolve_pk_indices pkCols columns = none := by
  induction pkCols with
  | nil =>
      obtain ⟨c, hc, _⟩ := h
      exact absurd hc (List.not_mem_nil c)
  | cons pk rest ih =>
      obtain ⟨c, hc, hnotin⟩ := h
      rcases List.mem_cons.mp hc with hc1 | hc2
      · subst hc1
        have hnone : pyIndexOf columns c = none := by
          rw [pyIndexOf, List.findIdx?_eq_none_iff]
          intro x hx
          refine decide_eq_false (fun hxc => ?_)
          exact hnotin (hxc ▸ hx)
        simp [resolve_pk_indices, hnone]
      · have := ih ⟨c, hc2, hnotin⟩
        simp only [resolve_pk_indices, this]
        cases pyIndexOf columns pk <;> rfl

/-- Claim C4: when the extracted PK column list has a name absent from
the parsed column list, the whole table falls back to full-row identity:
the `use_pk` decision is off, every CSV-side key is the normalization of
all column values, and every database-side key is the full fetched
record — never a partial projection onto the PK columns that were
found. -/
theorem c4_full_row_fallback_when_pk_column_missing
    (pkCols columns : List String) (h : ∃ c ∈ pkCols, c ∉ columns) :
    use_pk_decision (some pkCols) columns = none ∧
      (∀ values : List PyStr,
        csvRowKey (use_pk_decision (some pkCols) columns) values = values.map normalize_value) ∧
      (∀ record : RowKey,
        hanaRowKey (use_pk_decision (some pkCols) columns) record = record) := by
  have hnone : use_pk_decision (some pkCols) columns = none := by
    simp only [use_pk_decision, resolve_pk_indices_eq_none_of_missing pkCols columns h]
    cases pkCols.isEmpty <;> rfl
  refine ⟨hnone, fun values => ?_, fun record => ?_⟩
  · rw [hnone]; rfl
  · rw [hnone]; rfl

theorem c4_full_row_fallback_when_pk_column_missing_witness :
    use_pk_decision (some ["ID", "MANDT"]) ["ID", "NAME"] = none ∧
      csvRowKey (use_pk_decision (some ["ID", "MANDT"]) ["ID", "NAME"]) [['1'], ['a']] =
        [['1'], ['a']].map normalize_value ∧
      hanaRowKey (use_pk_decision (some ["ID", "MANDT"]) ["ID", "NAME"]) [['1'], ['a']] =
        [['1'], ['a']] := by
  have h := c4_full_row_fallback_when_pk_column_missing ["ID", "MANDT"] ["ID", "NAME"]
    ⟨"MANDT", by decide, by decide⟩
  exact ⟨h.1, h.2.1 [['1'], ['a']], h.2.2 [['1'], ['a']]⟩

/-! ### Claims C7 / C10: the paginated row fetch -/

/-- Result of the `execute_query` call inside the fetch helpers: stdout
is modelled after the `csv.reader` split (a list of delimited rows); an
empty raw stdout corresponds to the empty row list, making the
`if not stdout` guard and a loop over zero parsed rows coincide.
`.error` stands for any exception caught by the surrounding
`try/except`. -/
abbrev FetchResult := Except PyStr (Int × List (List PyStr) × PyStr)

/-- Python `" ".join(row)` (`hana_client.py` line 211). -/
def joinSpace : List PyStr → PyStr
  | [] => []
  | [x] => x
  | x :: y :: rest => x ++ ' ' :: joinSpace (y :: rest)

/-- Footer test of `hana_client.py` lines 211-213: the space-joined,
lowered row contains `rows selected` or `row selected`. -/
def isSummaryRow (row : List PyStr) : Bool :=
  containsSub ("rows selected".toList) (pyLower (joinSpace row)) ||
    containsSub ("row selected".toList) (pyLower (joinSpace row))

/-- The pad-and-truncate rule shared by `hana_client.py` lines 215-218
and `import_csv_to_hana.py` lines 151-155: pad the row with empty
strings up to the column count, then keep only the first
`len(columns)` fields. -/
def padTruncate (n : Nat) (row : List PyStr) : List PyStr :=
  (row ++ List.replicate (n - row.length) []).take n

/-- Fetch-time row normalization (`hana_client.py` lines 215-222). -/
def normalizeFetchedRow (n : Nat) (row : List PyStr) : RowKey :=
  (padTruncate n row).map normalize_value

/-- The stdout-parsing loop of `hana_client.py` lines 203-223: skip
empty rows, skip the first non-empty row (header), skip summary-footer
rows, then pad/truncate and normalize. -/
def parseFetchRows (n : Nat) : Bool → List (List PyStr) → List RowKey
  | _, [] => []
  | headerSkipped, row :: rest =>
    if row.isEmpty then parseFetchRows n headerSkipped rest
    else if !headerSkipped then parseFetchRows n true rest
    else if isSummaryRow row then parseFetchRows n headerSkipped rest
    else normalizeFetchedRow n row :: parseFetchRows n headerSkipped rest

/-- Table-not-found sniffing of `hana_client.py` lines 188-191: the
lowered stderr contains `table` and one of `not found`,
`does not exist`, `invalid table`. -/
def tableNotFoundError (stderrText : PyStr) : Bool :=
  containsSub ("table".toList) (pyLower stderrText) &&
    (containsSub ("not found".toList) (pyLower stderrText) ||
      containsSub ("does not exist".toList) (pyLower stderrText) ||
      containsSub ("invalid table".toList) (pyLower stderrText))

/-- `get_table_records_paginated` (`hana_client.py` lines 161-227).
The function is total (the Python body is wrapped in `try/except`
returning `[]`), so no exception reaches the caller in the model
either. -/
def get_table_records_paginated (columns : List String) (res : FetchResult) : List RowKey :=
  if columns.isEmpty then []
  else
    match res with
    | .error _ => []
    | .ok (returncode, stdoutRows, stderrText) =>
      if returncode ≠ 0 then
        if tableNotFoundError stderrText then [] else []
      else if stdoutRows.isEmpty then []
      else parseFetchRows columns.length false stdoutRows

/-- Claim C7: the paginated fetch degrades every failure to an empty
list: a raised client exception, a non-zero exit code (whether or not
the error text matches the table-not-found vocabulary), and an empty
stdout all yield `[]`. -/
theorem c7_paginated_fetch_degrades_to_empty_list (columns : List String) (e : PyStr)
    (rc : Int) (rows : List (List PyStr)) (err : PyStr) :
    get_table_records_paginated columns (.error e) = [] ∧
      (rc ≠ 0 → get_table_records_paginated columns (.ok (rc, rows, err)) = []) ∧
      get_table_records_paginated columns (.ok (0, [], err)) = [] := by
  refine ⟨?_, ?_, ?_⟩
  · rw [get_table_records_paginated.eq_def]
    cases columns.isEmpty <;> rfl
  · intro hrc
    rw [get_table_records_paginated.eq_def]
    cases columns.isEmpty with
    | true => rfl
    | false =>
        simp only [Bool.false_eq_true, if_false]
        rw [if_pos hrc]
        cases tableNotFoundError err <;> rfl
  · rw [get_table_records_paginated.eq_def]
    cases columns.isEmpty <;> rfl

theorem c7_paginated_fetch_degrades_to_empty_list_witness :
    get_table_records_paginated ["A"] (.error ("timeout".toList)) = [] ∧
      get_table_records_paginated ["A"] (.ok (43, [[['x']]], "some other error".toList)) = [] ∧
      get_table_records_paginated ["A"] (.ok (0, [], [])) = [] :=
  ⟨(c7_paginated_fetch_degrades_to_empty_list ["A"] ("timeout".toList) 43 [[['x']]]
      ("some other error".toList)).1,
    (c7_paginated_fetch_degrades_to_empty_list ["A"] ("timeout".toList) 43 [[['x']]]
      ("some other error".toList)).2.1 (by decide),
    (c7_paginated_fetch_degrades_to_empty_list ["A"] ("timeout".toList) 43 [[['x']]]
      ("some other error".toList)).2.2⟩

theorem padTruncate_length (n : Nat) (row : List PyStr) : (padTruncate n row).length = n := by
  simp only [padTruncate, List.length_take, List.length_append, List.length_replicate]
  omega

theorem parseFetchRows_mem (n : Nat) :
    ∀ (b : Bool) (rows : List (List PyStr)) (r : RowKey), r ∈ parseFetchRows n b rows →
      ∃ row, r = normalizeFetchedRow n row := by
  intro b rows
  induction rows generalizing b with
  | nil => intro r hr; simp [parseFetchRows] at hr
  | cons row rest ih =>
      intro r hr
      rw [parseFetchRows] at hr
      by_cases h1 : row.isEmpty
      · rw [if_pos h1] at hr
        exact ih b r hr
      · rw [if_neg h1] at hr
        cases b with
        | false =>
            simp only [Bool.not_false, if_pos] at hr
            exact ih true r hr
        | true =>
            simp only [Bool.not_true, Bool.false_eq_true, if_false] at hr
            by_cases h2 : isSummaryRow row
            · rw [if_pos h2] at hr
              exact ih true r hr
            · rw [if_neg h2] at hr
              rcases List.mem_cons.mp hr with hr1 | hr2
              · exact ⟨row, hr1⟩
              · exact ih true r hr2

/-- Claim C10: every row tuple produced by the paginated fetch has
exactly `len(columns)` components; the CSV-side parser applies the same
pad-and-truncate rule, so under either identity mode the CSV-side key
and the database-side key of a fetched record have the same fixed
arity. -/
theorem c10_fetched_rows_have_fixed_arity (columns : List String) (res : FetchResult) :
    (∀ r ∈ get_table_records_paginated columns res, r.length = columns.length) ∧
      (∀ row : List PyStr, (padTruncate columns.length row).length = columns.length) ∧
      (∀ (mode : Option (List Nat)) (row : List PyStr) (record : RowKey),
        record.length = columns.length →
          (csvRowKey mode (padTruncate columns.length row)).length =
            (hanaRowKey mode record).length) := by
  refine ⟨?_, fun row => padTruncate_length _ row, ?_⟩
  · intro r hr
    rw [get_table_records_paginated.eq_def] at hr
    cases hcols : columns.isEmpty with
    | true => rw [hcols] at hr; simp at hr
    | false =>
        rw [hcols] at hr
        simp only [Bool.false_eq_true, if_false] at hr
        cases res with
        | error e => simp at hr
        | ok t =>
            obtain ⟨rc, rows, err⟩ := t
            dsimp only at hr
            by_cases hrc : rc ≠ 0
            · rw [if_pos hrc] at hr
              cases tableNotFoundError err <;> simp_all
            · rw [if_neg hrc] at hr
              by_cases hrows : rows.isEmpty
              · rw [if_pos hrows] at hr; simp at hr
              · rw [if_neg hrows] at hr
                obtain ⟨row, hrow⟩ := parseFetchRows_mem columns.length false rows r hr
                rw [hrow, normalizeFetchedRow, List.length_map]
                exact padTruncate_length _ row
  · intro mode row record hrec
    cases mode with
    | none =>
        simp only [csvRowKey, hanaRowKey, List.length_map]
        rw [padTruncate_length, hrec]
    | some idxs => simp only [csvRowKey, hanaRowKey, List.length_map]

theorem c10_fetched_rows_have_fixed_arity_witness :
    (∀ r ∈ get_table_records_paginated ["A", "B"]
        (.ok (0, [[['h'], ['h']], [['v']], [['1'], ['2'], ['3']]], [])), r.length = 2) ∧
      (padTruncate 2 [['v']]).length = 2 ∧
      (csvRowKey none (padTruncate 2 [['v']])).length = (hanaRowKey none [['1'], ['2']]).length := by
  have h := c10_fetched_rows_have_fixed_arity ["A", "B"]
    (.ok (0, [[['h'], ['h']], [['v']], [['1'], ['2'], ['3']]], []))
  exact ⟨h.1, h.2.1 [['v']], h.2.2 none [['v']] [['1'], ['2']] rfl⟩

/-! ### Claims C5 / C9: the Reconciliation Engine -/

/-- The lock-protected removal loop of `import_csv_to_hana.py` lines
217-223: for each candidate duplicate key, re-check membership
(double-check) and, if still pending, delete it and count it. -/
def lockRemove : List RowKey → Finset RowKey → Nat → Finset RowKey × Nat
  | [], m, c => (m, c)
  | k :: ks, m, c =>
    if k ∈ m then lockRemove ks (m.erase k) (c + 1) else lockRemove ks m c

/-- One `compare_batch` execution over a fetched page
(`import_csv_to_hana.py` lines 209-225) as run against a given pending
map state: candidates are the page keys found pending at read time,
then removed under the lock with the double-check. -/
def compare_batch_step (page : List RowKey) (m : Finset RowKey) (c : Nat) :
    Finset RowKey × Nat :=
  lockRemove (page.filter (fun k => decide (k ∈ m))) m c

/-- Single-threaded reference reconciliation: the pages compared one at
a time, in order, against the always-current pending map. -/
def compareSeq : List (List RowKey) → Finset RowKey → Nat → Finset RowKey × Nat
  | [], m, c => (m, c)
  | pg :: rest, m, c =>
    compareSeq rest (compare_batch_step pg m c).1 (compare_batch_step pg m c).2

/-- The reconciliation dispatch of `import_csv_to_hana.py` lines
171-249: if `count_table_records` returned `None` or `0`, reconciliation
is skipped and every CSV record stays pending with duplicate count 0;
otherwise the pages are compared (represented here by the sequential
reference, which any valid concurrent schedule matches — see the C9
theorem). -/
def reconcile (countResult : Option Nat) (csvKeys : Finset RowKey)
    (pages : List (List RowKey)) : Finset RowKey × Nat :=
  match countResult with
  | none => (csvKeys, 0)
  | some 0 => (csvKeys, 0)
  | some (_ + 1) => compareSeq pages csvKeys 0

/-- Claim C5: whenever the live row count query yields null or zero,
reconciliation is skipped entirely: the pending set is the full keyed
CSV record map and the duplicate count is zero. -/
theorem c5_null_or_zero_count_skips_reconciliation (countResult : Option Nat)
    (csvKeys : Finset RowKey) (pages : List (List RowKey))
    (h : countResult = none ∨ countResult = some 0) :
    reconcile countResult csvKeys pages = (csvKeys, 0) := by
  rcases h with h | h <;> rw [h] <;> rfl

theorem c5_null_or_zero_count_skips_reconciliation_witness :
    reconcile none {[['k']]} [[[['k']]]] = ({[['k']]}, 0) ∧
      reconcile (some 0) {[['k']]} [[[['k']]]] = ({[['k']]}, 0) :=
  ⟨c5_null_or_zero_count_skips_reconciliation none {[['k']]} [[[['k']]]] (Or.inl rfl),
    c5_null_or_zero_count_skips_reconciliation (some 0) {[['k']]} [[[['k']]]] (Or.inr rfl)⟩

/-- Union of the key sets of a list of pages. -/
def pagesUnion (pages : List (List RowKey)) : Finset RowKey :=
  pages.foldr (fun pg acc => pg.toFinset ∪ acc) ∅

theorem lockRemove_spec : ∀ (ks : List RowKey) (m : Finset RowKey) (c : Nat),
    lockRemove ks m c = (m \ ks.toFinset, c + (m ∩ ks.toFinset).card) := by
  intro ks
  induction ks with
  | nil =>
      intro m c
      simp [lockRemove]
  | cons k rest ih =>
      intro m c
      by_cases hk : k ∈ m
      · rw [lockRemove, if_pos hk, ih]
        have hset : m.erase k \ rest.toFinset = m \ (k :: rest).toFinset := by
          ext a
          simp only [Finset.mem_sdiff, Finset.mem_erase, List.toFinset_cons, Finset.mem_insert]
          tauto
        have hcard : c + 1 + (m.erase k ∩ rest.toFinset).card =
            c + (m ∩ (k :: rest).toFinset).card := by
          rw [Finset.erase_inter]
          by_cases hkr : k ∈ rest.toFinset
          · have hmem : k ∈ m ∩ rest.toFinset := Finset.mem_inter.mpr ⟨hk, hkr⟩
            have h1 : m ∩ (k :: rest).toFinset = m ∩ rest.toFinset := by
              rw [List.toFinset_cons, Finset.insert_eq_self.mpr hkr]
            rw [h1, Finset.card_erase_of_mem hmem]
            have hpos : 0 < (m ∩ rest.toFinset).card := Finset.card_pos.mpr ⟨k, hmem⟩
            omega
          · have hnmem : k ∉ m ∩ rest.toFinset := fun hmem => hkr (Finset.mem_inter.mp hmem).2
            rw [Finset.erase_eq_of_not_mem hnmem]
            have h1 : m ∩ (k :: rest).toFinset = insert k (m ∩ rest.toFinset) := by
              ext a
              simp only [Finset.mem_inter, List.toFinset_cons, Finset.mem_insert]
              constructor
              · rintro ⟨ham, hai⟩
                rcases hai with h | h
                · exact Or.inl h
                · exact Or.inr ⟨ham, h⟩
              · rintro (h | ⟨ham, har⟩)
                · exact ⟨h ▸ hk, Or.inl h⟩
                · exact ⟨ham, Or.inr har⟩
            rw [h1, Finset.card_insert_of_not_mem hnmem]
            omega
        rw [hset, hcard]
      · rw [lockRemove, if_neg hk, ih]
        have hset : m \ rest.toFinset = m \ (k :: rest).toFinset := by
          ext a
          simp only [Finset.mem_sdiff, List.toFinset_cons, Finset.mem_insert]
          constructor
          · rintro ⟨ham, har⟩
            exact ⟨ham, fun h => h.elim (fun he => hk (he ▸ ham)) har⟩
          · rintro ⟨ham, h⟩
            exact ⟨ham, fun har => h (Or.inr har)⟩
        have hcard : m ∩ rest.toFinset = m ∩ (k :: rest).toFinset := by
          ext a
          simp only [Finset.mem_inter, List.toFinset_cons, Finset.mem_insert]
          constructor
          · rintro ⟨ham, har⟩
            exact ⟨ham, Or.inr har⟩
          · rintro ⟨ham, h⟩
            rcases h with he | har
            · exact absurd (he ▸ ham) hk
            · exact ⟨ham, har⟩
        rw [hset, hcard]

theorem compare_batch_step_spec (page : List RowKey) (m : Finset RowKey) (c : Nat) :
    compare_batch_step page m c = (m \ page.toFinset, c + (m ∩ page.toFinset).card) := by
  rw [compare_batch_step, lockRemove_spec]
  have hset : m \ (page.filter (fun k => decide (k ∈ m))).toFinset = m \ page.toFinset := by
    ext a
    simp only [Finset.mem_sdiff, List.mem_toFinset, List.mem_filter, decide_eq_true_eq]
    tauto
  have hinter : m ∩ (page.filter (fun k => decide (k ∈ m))).toFinset = m ∩ page.toFinset := by
    ext a
    simp only [Finset.mem_inter, List.mem_toFinset, List.mem_filter, decide_eq_true_eq]
    tauto
  rw [hset, hinter]

theorem compareSeq_spec : ∀ (pages : List (List RowKey)) (m : Finset RowKey) (c : Nat),
    compareSeq pages m c = (m \ pagesUnion pages, c + (m ∩ pagesUnion pages).card) := by
  intro pages
  induction pages with
  | nil =>
      intro m c
      simp [compareSeq, pagesUnion]
  | cons pg rest ih =>
      intro m c
      rw [compareSeq, compare_batch_step_spec]
      dsimp only
      rw [ih]
      have hU : pagesUnion (pg :: rest) = pg.toFinset ∪ pagesUnion rest := rfl
      rw [hU]
      have hset : (m \ pg.toFinset) \ pagesUnion rest = m \ (pg.toFinset ∪ pagesUnion rest) := by
        ext a
        simp only [Finset.mem_sdiff, Finset.mem_union]
        tauto
      have hcard : c + (m ∩ pg.toFinset).card + ((m \ pg.toFinset) ∩ pagesUnion rest).card =
          c + (m ∩ (pg.toFinset ∪ pagesUnion rest)).card := by
        have hdisj : Disjoint (m ∩ pg.toFinset) ((m \ pg.toFinset) ∩ pagesUnion rest) := by
          rw [Finset.disjoint_left]
          intro a ha hb
          exact (Finset.mem_sdiff.mp (Finset.mem_inter.mp hb).1).2 (Finset.mem_inter.mp ha).2
        have hunion : (m ∩ pg.toFinset) ∪ ((m \ pg.toFinset) ∩ pagesUnion rest) =
            m ∩ (pg.toFinset ∪ pagesUnion rest) := by
          ext a
          simp only [Finset.mem_union, Finset.mem_inter, Finset.mem_sdiff]
          tauto
        rw [← hunion, Finset.card_union_of_disjoint hdisj]
        omega
      rw [hset, hcard]

/-- A concurrent execution of the page-comparison phase
(`import_csv_to_hana.py` lines 185-245), serialized at its lock
acquisitions: each worker first collects candidate duplicates from a
read of the shared map taken outside the lock (so the candidate list
contains at least every page key still pending when the lock is
acquired, and only page keys), then removes candidates under the lock
with the double-check (`lockRemove`). -/
inductive ConcRun :
    Finset RowKey × Nat → List (List RowKey × List RowKey) → Finset RowKey × Nat → Prop
  | nil (s : Finset RowKey × Nat) : ConcRun s [] s
  | step (s : Finset RowKey × Nat) (page cand : List RowKey)
      (rest : List (List RowKey × List RowKey)) (out : Finset RowKey × Nat)
      (hsub : ∀ k ∈ cand, k ∈ page)
      (hcover : ∀ k ∈ page, k ∈ s.1 → k ∈ cand)
      (hrest : ConcRun (lockRemove cand s.1 s.2) rest out) :
      ConcRun s ((page, cand) :: rest) out

theorem concRun_spec : ∀ (l : List (List RowKey × List RowKey)) (s out : Finset RowKey × Nat),
    ConcRun s l out →
      out = (s.1 \ pagesUnion (l.map Prod.fst),
        s.2 + (s.1 ∩ pagesUnion (l.map Prod.fst)).card) := by
  intro l
  induction l with
  | nil =>
      intro s out h
      cases h
      simp [pagesUnion]
  | cons pc rest ih =>
      intro s out h
      cases h with
      | step _ page cand _ _ hsub hcover hrest =>
          have hstep := ih _ out hrest
          rw [lockRemove_spec] at hstep
          dsimp only at hstep
          rw [hstep]
          have hU : pagesUnion (((page, cand) :: rest).map Prod.fst) =
              page.toFinset ∪ pagesUnion (rest.map Prod.fst) := rfl
          rw [hU]
          have hset : (s.1 \ cand.toFinset) \ pagesUnion (rest.map Prod.fst) =
              s.1 \ (page.toFinset ∪ pagesUnion (rest.map Prod.fst)) := by
            ext a
            simp only [Finset.mem_sdiff, Finset.mem_union, List.mem_toFinset]
            constructor
            · rintro ⟨⟨ham, hnc⟩, hnu⟩
              refine ⟨ham, fun h => ?_⟩
              rcases h with hp | hu
              · exact hnc (hcover a hp ham)
              · exact hnu hu
            · rintro ⟨ham, hno⟩
              exact ⟨⟨ham, fun hc => hno (Or.inl (hsub a hc))⟩, fun hu => hno (Or.inr hu)⟩
          have hcard : s.2 + (s.1 ∩ cand.toFinset).card +
              ((s.1 \ cand.toFinset) ∩ pagesUnion (rest.map Prod.fst)).card =
              s.2 + (s.1 ∩ (page.toFinset ∪ pagesUnion (rest.map Prod.fst))).card := by
            have hdisj : Disjoint (s.1 ∩ cand.toFinset)
                ((s.1 \ cand.toFinset) ∩ pagesUnion (rest.map Prod.fst)) := by
              rw [Finset.disjoint_left]
              intro a ha hb
              exact (Finset.mem_sdiff.mp (Finset.mem_inter.mp hb).1).2 (Finset.mem_inter.mp ha).2
            have hunion : (s.1 ∩ cand.toFinset) ∪
                ((s.1 \ cand.toFinset) ∩ pagesUnion (rest.map Prod.fst)) =
                s.1 ∩ (page.toFinset ∪ pagesUnion (rest.map Prod.fst)) := by
              ext a
              simp only [Finset.mem_union, Finset.mem_inter, Finset.mem_sdiff, List.mem_toFinset]
              constructor
              · rintro (⟨ham, hc⟩ | ⟨⟨ham, _⟩, hu⟩)
                · exact ⟨ham, Or.inl (hsub a hc)⟩
                · exact ⟨ham, Or.inr hu⟩
              · rintro ⟨ham, hp | hu⟩
                · exact Or.inl ⟨ham, hcover a hp ham⟩
                · by_cases hc : a ∈ cand
                  · exact Or.inl ⟨ham, hc⟩
                  · exact Or.inr ⟨⟨ham, hc⟩, hu⟩
            rw [← hunion, Finset.card_union_of_disjoint hdisj]
            omega
          rw [hset, hcard]

theorem pagesUnion_eq_sup (pages : List (List RowKey)) :
    pagesUnion pages = pages.toFinset.sup List.toFinset := by
  induction pages with
  | nil => simp [pagesUnion]
  | cons pg rest ih =>
      have h : pagesUnion (pg :: rest) = pg.toFinset ∪ pagesUnion rest := rfl
      rw [h, List.toFinset_cons, Finset.sup_insert, ih, Finset.sup_eq_union]

theorem pagesUnion_perm (l1 l2 : List (List RowKey)) (h : l1.Perm l2) :
    pagesUnion l1 = pagesUnion l2 := by
  rw [pagesUnion_eq_sup, pagesUnion_eq_sup, List.toFinset_eq_of_perm _ _ h]

/-- Claim C9: any concurrent page-comparison execution — pages processed
in any lock order, with candidate lists possibly computed from stale
(larger) snapshots of the pending map and with keys repeated across
overlapping pages — produces exactly the pending set and duplicate
count of the single-threaded reference reconciliation over the same
pages: no duplicate is counted twice and no removal is missed. -/
theorem c9_concurrent_reconciliation_matches_sequential
    (m0 : Finset RowKey) (pages : List (List RowKey))
    (sched : List (List RowKey × List RowKey)) (out : Finset RowKey × Nat)
    (hrun : ConcRun (m0, 0) sched out)
    (hperm : (sched.map Prod.fst).Perm pages) :
    out = compareSeq pages m0 0 := by
  rw [concRun_spec sched (m0, 0) out hrun, compareSeq_spec]
  rw [pagesUnion_perm _ _ hperm]

theorem c9_concurrent_reconciliation_matches_sequential_witness :
    ConcRun ({[['a']]}, 0) [([[['a']], [['b']]], [[['a']], [['b']]])]
        (lockRemove [[['a']], [['b']]] {[['a']]} 0) ∧
      lockRemove [[['a']], [['b']]] {[['a']]} 0 =
        compareSeq [[[['a']], [['b']]]] {[['a']]} 0 := by
  have hrun : ConcRun ({[['a']]}, 0) [([[['a']], [['b']]], [[['a']], [['b']]])]
      (lockRemove [[['a']], [['b']]] {[['a']]} 0) := by
    refine ConcRun.step ({[['a']]}, 0) [[['a']], [['b']]] [[['a']], [['b']]] [] _ ?_ ?_ ?_
    · intro k hk
      exact hk
    · intro k hk _
      exact hk
    · exact ConcRun.nil _
  exact ⟨hrun, c9_concurrent_reconciliation_matches_sequential {[['a']]}
    [[[['a']], [['b']]]] [([[['a']], [['b']]], [[['a']], [['b']]])] _ hrun (List.Perm.refl _)⟩

/-- Link between the C2 component definitions and the fetch/compare
pipeline: for valid PK positions, the key `compare_batch` builds from a
fetch-normalized record is exactly `dbSideKeyComponent` applied to the
padded raw fields. -/
theorem hanaRowKey_of_fetched_is_double_normalization (idxs : List Nat) (n : Nat)
    (row : List PyStr) (h : ∀ i ∈ idxs, i < n) :
    hanaRowKey (some idxs) (normalizeFetchedRow n row) =
      idxs.map (fun i => dbSideKeyComponent ((padTruncate n row).getD i [])) := by
  simp only [hanaRowKey, normalizeFetchedRow, dbSideKeyComponent]
  refine List.map_congr_left (fun i hi => ?_)
  have hlt : i < (padTruncate n row).length := by
    rw [padTruncate_length]
    exact h i hi
  have hlt2 : i < ((padTruncate n row).map normalize_value).length := by
    rw [List.length_map]
    exact hlt
  rw [List.getD_eq_getElem?_getD, List.getD_eq_getElem?_getD,
    List.getElem?_eq_getElem hlt2, List.getElem?_eq_getElem hlt]
  simp only [Option.getD_some, List.getElem_map]

/-! ### Claim C8: process exit code at end of run -/

/-- Aggregate run counters built by the table loop of
`import_csv_to_hana.py` lines 449-486 from the per-table results
`(success, inserted, skipped, errors)`. -/
structure RunSummary where
  success_count : Nat
  error_count : Nat
  total_inserted : Nat
  total_skipped : Nat
  total_errors : Nat
  deriving DecidableEq

/-- The counter-accumulation of `main` (`import_csv_to_hana.py` lines
467-486). -/
def summarize : List (Bool × Nat × Nat × Nat) → RunSummary
  | [] => ⟨0, 0, 0, 0, 0⟩
  | (success, inserted, skipped, errors) :: rest =>
    let acc := summarize rest
    { success_count := acc.success_count + (if success then 1 else 0)
      error_count := acc.error_count + (if success then 0 else 1)
      total_inserted := acc.total_inserted + inserted
      total_skipped := acc.total_skipped + skipped
      total_errors := acc.total_errors + errors }

/-- The process exit code produced by `main`
(`import_csv_to_hana.py` lines 400-503): `sys.exit(1)` fires only
during setup (missing tar archive, undetected schema, failed
connection test, no CSV files found).  After the table loop and the
final summary there is no `sys.exit` call, so `main` returns normally
and the process exits 0 regardless of the per-table outcomes. -/
def mainExitCode (tarExists schemaDetected connected : Bool)
    (csvFiles : List String) (_outcomes : List (Bool × Nat × Nat × Nat)) : Nat :=
  if !tarExists then 1
  else if !schemaDetected then 1
  else if !connected then 1
  else if csvFiles.isEmpty then 1
  else 0

/-- Claim C8 is contradicted by the code: a run whose only table
finishes with 3 failed rows has `total_errors = 3`, yet `main` falls
through to a normal return and the process exit code is 0, not the
non-zero value the specification requires. -/
theorem c8_failed_rows_still_exit_zero :
    (summarize [(false, 0, 0, 3)]).total_errors = 3 ∧
      (summarize [(false, 0, 0, 3)]).error_count = 1 ∧
      mainExitCode true true true ["T1"] [(false, 0, 0, 3)] = 0 :=
  ⟨rfl, rfl, rfl⟩
